import Mathlib

/-!
Verification of the FaaSr status-tracker core (`framework/faasr_function.py`,
`framework/utils/utils.py`, `framework/utils/enums.py`, `framework/s3_client.py`).

The Python code is shallowly embedded: the status enumeration becomes an
inductive type, the tracker's mutable fields become an explicit state record,
log events become a step function over that state, and the two regex matchers
become character-level scanners with the same matching semantics.
-/

namespace FaaSr

/-- Enumeration `FunctionStatus` from `framework/utils/enums.py`. -/
inductive FunctionStatus where
  | PENDING
  | INVOKED
  | NOT_INVOKED
  | RUNNING
  | COMPLETED
  | FAILED
  | SKIPPED
  | TIMEOUT
deriving DecidableEq, Repr

open FunctionStatus

/-- Predicate `pending` from `framework/utils/utils.py`. -/
def pending (status : FunctionStatus) : Bool := status = PENDING

/-- Predicate `invoked` from `framework/utils/utils.py`. -/
def invoked (status : FunctionStatus) : Bool := status = INVOKED

/-- Predicate `not_invoked` from `framework/utils/utils.py`. -/
def not_invoked (status : FunctionStatus) : Bool := status = NOT_INVOKED

/-- Predicate `running` from `framework/utils/utils.py`. -/
def running (status : FunctionStatus) : Bool := status = RUNNING

/-- Predicate `completed` from `framework/utils/utils.py`. -/
def completed (status : FunctionStatus) : Bool := status = COMPLETED

/-- Predicate `failed` from `framework/utils/utils.py`. -/
def failed (status : FunctionStatus) : Bool := status = FAILED

/-- Predicate `skipped` from `framework/utils/utils.py`. -/
def skipped (status : FunctionStatus) : Bool := status = SKIPPED

/-- Predicate `timed_out` from `framework/utils/utils.py`. -/
def timed_out (status : FunctionStatus) : Bool := status = TIMEOUT

/-- Predicate `has_final_state` from `framework/utils/utils.py`. -/
def has_final_state (status : FunctionStatus) : Bool :=
  completed status || not_invoked status || failed status
    || timed_out status || skipped status

/-- Function `get_s3_path` from `framework/utils/utils.py`:
`key.replace("\\", "/")` — a character-for-character substitution. -/
def get_s3_path (key : String) : String :=
  ⟨key.data.map (fun c => if c = '\\' then '/' else c)⟩

/-- The two chained replacements in `FaaSrFunction.done_key`
(`.replace("(", ".").replace(")", "")`), done in one pass: the first
replacement maps `(` to `.` (which the second leaves alone) and the
second deletes `)` (which the first never produces). -/
def replaceParens : List Char → List Char
  | [] => []
  | c :: rest =>
    if c = '(' then '.' :: replaceParens rest
    else if c = ')' then replaceParens rest
    else c :: replaceParens rest

/-- The immutable identity of a tracked function: the constructor arguments
of `FaaSrFunction.__init__` that the claims use. -/
structure Config where
  function_name : String
  workflow_name : String
  invocation_folder : String
deriving DecidableEq, Repr

/-- Property `FaaSrFunction.done_key` from `framework/faasr_function.py`. -/
def done_key (cfg : Config) : String :=
  get_s3_path
    ⟨cfg.invocation_folder.data ++ "/function_completions/".data
      ++ replaceParens cfg.function_name.data ++ ".done".data⟩

/-! ### The failure regex

`FaaSrFunction.failed_regex = re.compile(r"\[[\d\.]+?\] \[ERROR\]")` and
`FaaSrFunction._check_for_failure`, which returns
`failed_regex.search(logs_content) is not None`.  The character class
`[\d\.]` excludes `]`, so a (non-greedy) match exists at some position
exactly when a maximal run of timestamp characters after a `[` is nonempty
and is followed by `"] [ERROR]"`; the scanner below tries every position. -/

/-- The code-point ranges of Unicode general category Nd (decimal digits),
from the Unicode 14.0.0 character database bundled with CPython 3.11: in a
str pattern without `re.ASCII`, `\d` matches exactly these 660 characters. -/
def ndRanges : List (Nat × Nat) :=
  [(0x30, 0x39), (0x660, 0x669), (0x6F0, 0x6F9), (0x7C0, 0x7C9),
    (0x966, 0x96F), (0x9E6, 0x9EF), (0xA66, 0xA6F), (0xAE6, 0xAEF),
    (0xB66, 0xB6F), (0xBE6, 0xBEF), (0xC66, 0xC6F), (0xCE6, 0xCEF),
    (0xD66, 0xD6F), (0xDE6, 0xDEF), (0xE50, 0xE59), (0xED0, 0xED9),
    (0xF20, 0xF29), (0x1040, 0x1049), (0x1090, 0x1099), (0x17E0, 0x17E9),
    (0x1810, 0x1819), (0x1946, 0x194F), (0x19D0, 0x19D9), (0x1A80, 0x1A89),
    (0x1A90, 0x1A99), (0x1B50, 0x1B59), (0x1BB0, 0x1BB9), (0x1C40, 0x1C49),
    (0x1C50, 0x1C59), (0xA620, 0xA629), (0xA8D0, 0xA8D9), (0xA900, 0xA909),
    (0xA9D0, 0xA9D9), (0xA9F0, 0xA9F9), (0xAA50, 0xAA59), (0xABF0, 0xABF9),
    (0xFF10, 0xFF19), (0x104A0, 0x104A9), (0x10D30, 0x10D39), (0x11066, 0x1106F),
    (0x110F0, 0x110F9), (0x11136, 0x1113F), (0x111D0, 0x111D9), (0x112F0, 0x112F9),
    (0x11450, 0x11459), (0x114D0, 0x114D9), (0x11650, 0x11659), (0x116C0, 0x116C9),
    (0x11730, 0x11739), (0x118E0, 0x118E9), (0x11950, 0x11959), (0x11C50, 0x11C59),
    (0x11D50, 0x11D59), (0x11DA0, 0x11DA9), (0x16A60, 0x16A69), (0x16AC0, 0x16AC9),
    (0x16B50, 0x16B59), (0x1D7CE, 0x1D7FF), (0x1E140, 0x1E149), (0x1E2F0, 0x1E2F9),
    (0x1E950, 0x1E959), (0x1FBF0, 0x1FBF9)]

/-- A character matched by Python's `\d`: any Unicode decimal digit. -/
def isUnicodeDigit (c : Char) : Bool :=
  ndRanges.any (fun r => r.1 ≤ c.toNat && c.toNat ≤ r.2)

/-- A character matched by the class `[\d\.]`. -/
def isTsChar (c : Char) : Bool := isUnicodeDigit c || c = '.'

/-- The literal part of `failed_regex` after the timestamp: `"] [ERROR]"`. -/
def errorTail : List Char := "] [ERROR]".data

/-- Predicate `beginsWith pat l`: holds when `pat` is an initial segment of `l`. -/
def beginsWith : List Char → List Char → Bool
  | [], _ => true
  | _ :: _, [] => false
  | p :: ps, c :: cs => p = c && beginsWith ps cs

/-- After an opening `[`: one-or-more `[\d\.]` characters, then `"] [ERROR]"`. -/
def tsLoop : List Char → Bool
  | [] => false
  | c :: rest => isTsChar c && (beginsWith errorTail rest || tsLoop rest)

/-- Does a `failed_regex` match start at the head of `l`? (The regex
opens with the literal `\[`.) -/
def matchHere : List Char → Bool
  | [] => false
  | c :: rest => c = '[' && tsLoop rest

/-- Search (`re.search`) over every position of the text. -/
def failedSearch : List Char → Bool
  | [] => false
  | c :: rest => matchHere (c :: rest) || failedSearch rest

/-- Method `FaaSrFunction._check_for_failure` from `framework/faasr_function.py`. -/
def check_for_failure (logs_content : String) : Bool :=
  failedSearch logs_content.data

/-! ### The invocation regex

`FaaSrFunction.invoked_regex = re.compile(
  r"(?<=\[scheduler.py\] GitHub Action: Successfully invoked: )[a-zA-Z][a-zA-Z0-9\-]+")`
and `FaaSrFunction._extract_invocations`.  The look-behind is fixed-width;
its `.` (the one in `scheduler.py`) is an unescaped regex dot matching any
character except a newline.  A token is a letter followed by one-or-more
letters/digits/hyphens, matched greedily.  Because the look-behind ends in a
space and token characters never include a space, matches never overlap, so
scanning every position yields exactly the `findall` results. -/

/-- One element of the look-behind pattern: `some c` is the literal `c`,
`none` is the regex `.` (any character except `'\n'`). -/
def markerPat : List (Option Char) :=
  "[scheduler".data.map some ++ [none]
    ++ "py] GitHub Action: Successfully invoked: ".data.map some

/-- Match a literal/wildcard pattern against the front of the text,
returning the remainder on success. -/
def matchPat : List (Option Char) → List Char → Option (List Char)
  | [], l => some l
  | _ :: _, [] => none
  | some p :: ps, c :: cs => if p = c then matchPat ps cs else none
  | none :: ps, c :: cs => if c = '\n' then none else matchPat ps cs

/-- A character matched by the class `[a-zA-Z0-9\-]`. -/
def isTokenChar (c : Char) : Bool := c.isAlpha || c.isDigit || c = '-'

/-- The token matched at the head of `l`, if the look-behind pattern and a
two-or-more-character token (`[a-zA-Z][a-zA-Z0-9\-]+`, greedy) start there. -/
def tokenHere (l : List Char) : Option (List Char) :=
  match matchPat markerPat l with
  | none => none
  | some [] => none
  | some (d :: rem) =>
    if d.isAlpha && !(rem.takeWhile isTokenChar).isEmpty then
      some (d :: rem.takeWhile isTokenChar)
    else none

/-- Embedding of `invoked_regex.findall(logs_content)`: all matched tokens, scanning
every position, in order. -/
def findTokens : List Char → List (List Char)
  | [] => []
  | c :: rest =>
    match tokenHere (c :: rest) with
    | some t => t :: findTokens rest
    | none => findTokens rest

/-- Embedding of `re.sub(r"^" + workflow_name + "-", "", invocation)`: drop one leading
`<workflow-name>-` when present (for a workflow name with no regex
metacharacters, the interpolated pattern is the anchored literal). -/
def stripWorkflow (workflow_name : String) (invocation : List Char) : List Char :=
  if beginsWith (workflow_name.data ++ ['-']) invocation then
    invocation.drop (workflow_name.data.length + 1)
  else invocation

/-- The set built by `FaaSrFunction._extract_invocations`:
`set(re.sub(...) for invocation in invoked_regex.findall(logs_content))`. -/
def extract_invocations (workflow_name : String) (logs_content : String) :
    Finset String :=
  ((findTokens logs_content.data).map
    (fun t => (⟨stripWorkflow workflow_name t⟩ : String))).toFinset

/-! ### The tracker state machine

`FaaSrFunction`'s mutable fields (`_status`, `_invocations`) plus the
stop state of its owned logger, with each log event as a pure transition.
The log text and the store are the environment at delivery time. -/

/-- The mutable state of one `FaaSrFunction`, plus whether its owned
`FaaSrFunctionLogger` has been told to stop. -/
structure TrackerState where
  status : FunctionStatus
  invocations : Option (Finset String)
  stopped : Bool
deriving DecidableEq

/-- The state set up by `FaaSrFunction.__init__`: status `PENDING`,
invocations unknown, logger running. -/
def initState : TrackerState :=
  { status := PENDING, invocations := none, stopped := false }

/-- Method `FaaSrFunction.set_status`: unconditional write of the status field. -/
def set_status (st : TrackerState) (status : FunctionStatus) : TrackerState :=
  { st with status := status }

/-- What the collaborators answer at the moment an event is handled:
the accumulated log text (`logger.logs_content`) and the store's
existence oracle (`s3_client.object_exists`). -/
structure Env where
  logs_content : String
  store : String → Bool

/-- Method `FaaSrFunction._check_for_completion`: does the `.done` marker exist? -/
def check_for_completion (cfg : Config) (env : Env) : Bool :=
  env.store (done_key cfg)

/-- Method `FaaSrFunction._handle_log_created`. -/
def handle_log_created (st : TrackerState) : TrackerState :=
  set_status st RUNNING

/-- Method `FaaSrFunction._handle_log_updated`: failure check, else completion
check; on either verdict also stop the logger. -/
def handle_log_updated (cfg : Config) (env : Env) (st : TrackerState) :
    TrackerState :=
  if check_for_failure env.logs_content then
    { set_status st FAILED with stopped := true }
  else if check_for_completion cfg env then
    { set_status st COMPLETED with stopped := true }
  else st

/-- Method `FaaSrFunction._handle_log_complete`: extract invocations, then the
same classification without stopping the logger. -/
def handle_log_complete (cfg : Config) (env : Env) (st : TrackerState) :
    TrackerState :=
  let st' := { st with
    invocations := some (extract_invocations cfg.workflow_name env.logs_content) }
  if check_for_failure env.logs_content then set_status st' FAILED
  else if check_for_completion cfg env then set_status st' COMPLETED
  else st'

/-- Enumeration `LogEvent` from `framework/faasr_function_logger.py`, as dispatched by
`FaaSrFunction._on_log_event`. -/
inductive LogEvent where
  | LOG_CREATED
  | LOG_UPDATED
  | LOG_COMPLETE
deriving DecidableEq, Repr

/-- Delivery of one event.  Per the log-source contract (spec §5/§6), a
stopped source delivers no further events, so a stopped tracker is frozen. -/
def step (cfg : Config) (st : TrackerState) (p : LogEvent × Env) : TrackerState :=
  if st.stopped then st
  else
    match p.1 with
    | LogEvent.LOG_CREATED => handle_log_created st
    | LogEvent.LOG_UPDATED => handle_log_updated cfg p.2 st
    | LogEvent.LOG_COMPLETE => handle_log_complete cfg p.2 st

/-- Delivery of a sequence of events, in order. -/
def run (cfg : Config) (st : TrackerState) (events : List (LogEvent × Env)) :
    TrackerState :=
  events.foldl (step cfg) st

/-! ### The storage existence check

`FaaSrS3Client.object_exists` from `framework/s3_client.py`.  `head_object`
either succeeds or raises a `ClientError` carrying an error code; the method
maps code `"404"` to `False`, wraps any other `ClientError` in
`S3ClientError`, and returns `True` on success. -/

/-- Outcome of the underlying `head_object` call. -/
inductive HeadObjectResult where
  | success
  | clientError (code : String)
deriving DecidableEq, Repr

/-- Exception `S3ClientError` from `framework/s3_client.py` (the wrapped code stands
in for the formatted message). -/
inductive S3Error where
  | s3ClientError (code : String)
deriving DecidableEq, Repr

/-- Method `FaaSrS3Client.object_exists` from `framework/s3_client.py`. -/
def object_exists (r : HeadObjectResult) : Except S3Error Bool :=
  match r with
  | HeadObjectResult.success => Except.ok true
  | HeadObjectResult.clientError code =>
    if code = "404" then Except.ok false
    else Except.error (S3Error.s3ClientError code)

/-! ### Concrete fixtures used by witnesses -/

/-- A concrete identity: rank-free function `f` of workflow `wf` in run
folder `run1`. -/
def cfgA : Config := { function_name := "f", workflow_name := "wf", invocation_folder := "run1" }

/-- An environment whose log triggers the failure pattern. -/
def envErr : Env := { logs_content := "[12.34] [ERROR] boom", store := fun _ => false }

/-- An environment with a quiet log and an empty store. -/
def envA : Env := { logs_content := "hello", store := fun _ => false }

/-- The spec's worked example: two invocations of `wf-taskA` and one of
`wf-taskB` in the accumulated log. -/
def logC4 : String :=
  "x [scheduler.py] GitHub Action: Successfully invoked: wf-taskA\n"
    ++ "y [scheduler.py] GitHub Action: Successfully invoked: wf-taskA\n"
    ++ "z [scheduler.py] GitHub Action: Successfully invoked: wf-taskB\n"

/-- The invariant kept by `created`/`updated` events: a terminal status is
only ever written together with a stop signal. -/
def terminalImpliesStopped (st : TrackerState) : Prop :=
  has_final_state st.status = true → st.stopped = true

/-! ### C9 — the terminal-state predicate -/

/-- C9: `has_final_state` returns `true` for exactly `COMPLETED`,
`NOT_INVOKED`, `FAILED`, `TIMEOUT` and `SKIPPED`, and `false` for
`PENDING`, `INVOKED` and `RUNNING`. -/
theorem C9_has_final_state_partition :
    ∀ s : FunctionStatus,
      has_final_state s = true ↔
        (s = COMPLETED ∨ s = NOT_INVOKED ∨ s = FAILED ∨ s = TIMEOUT ∨ s = SKIPPED) := by
  intro s
  cases s <;> decide

/-- Witness for C9 at the concrete status `COMPLETED`. -/
theorem C9_witness : has_final_state COMPLETED = true :=
  (C9_has_final_state_partition COMPLETED).mpr (Or.inl rfl)

/-! ### C7 — the explicit status override -/

/-- C7: `set_status` writes exactly the given status whatever the current
one, leaves the stop state and the invocation set untouched, an override
to `SKIPPED` right after construction reads back as `SKIPPED` with no log
event, and a later log-driven transition (here `created`) can overwrite
the overridden value. -/
theorem C7_set_status_override :
    (∀ st s, (set_status st s).status = s
      ∧ (set_status st s).stopped = st.stopped
      ∧ (set_status st s).invocations = st.invocations)
    ∧ (set_status initState SKIPPED).status = SKIPPED
    ∧ (handle_log_created (set_status initState SKIPPED)).status = RUNNING :=
  ⟨fun _ _ => ⟨rfl, rfl, rfl⟩, rfl, rfl⟩

/-- Witness for C7 at a concrete state and status. -/
theorem C7_witness : (set_status initState FAILED).status = FAILED :=
  (C7_set_status_override.1 initState FAILED).1

/-! ### C8 — the storage existence check -/

/-- C8: `object_exists` yields `false` exactly on error code `"404"`,
`true` exactly when `head_object` succeeds, and an `S3ClientError` for
every other client failure, in which case no boolean is returned. -/
theorem C8_object_exists_classification :
    (∀ r, object_exists r = Except.ok false ↔ r = HeadObjectResult.clientError "404")
    ∧ (∀ r, object_exists r = Except.ok true ↔ r = HeadObjectResult.success)
    ∧ (∀ code, code ≠ "404" →
        object_exists (HeadObjectResult.clientError code)
          = Except.error (S3Error.s3ClientError code)) := by
  refine ⟨fun r => ?_, fun r => ?_, fun code hc => ?_⟩
  · cases r with
    | success => simp [object_exists]
    | clientError code =>
      by_cases hc : code = "404" <;> simp [object_exists, hc]
  · cases r with
    | success => simp [object_exists]
    | clientError code =>
      by_cases hc : code = "404" <;> simp [object_exists, hc]
  · simp [object_exists, hc]

/-- Witness for C8 at the concrete non-404 code `"500"`. -/
theorem C8_witness :
    object_exists (HeadObjectResult.clientError "500")
      = Except.error (S3Error.s3ClientError "500") :=
  C8_object_exists_classification.2.2 "500" (by decide)

/-! ### C2 — marker-key derivation -/

lemma replaceParens_append (a b : List Char) :
    replaceParens (a ++ b) = replaceParens a ++ replaceParens b := by
  induction a with
  | nil => rfl
  | cons c rest ih =>
    simp only [List.cons_append, replaceParens]
    split_ifs <;> simp [ih]

lemma replaceParens_eq_self (l : List Char)
    (h : ∀ c ∈ l, c ≠ '(' ∧ c ≠ ')') : replaceParens l = l := by
  induction l with
  | nil => rfl
  | cons c rest ih =>
    have hc := h c (List.mem_cons_self c rest)
    simp only [replaceParens, if_neg hc.1, if_neg hc.2]
    exact congrArg (c :: ·) (ih fun d hd => h d (List.mem_cons_of_mem c hd))

lemma slashMap_eq_self (l : List Char) (h : ∀ c ∈ l, c ≠ '\\') :
    l.map (fun c => if c = '\\' then '/' else c) = l := by
  induction l with
  | nil => rfl
  | cons c rest ih =>
    have hc := h c (List.mem_cons_self c rest)
    simp only [List.map_cons, if_neg hc]
    exact congrArg (c :: ·) (ih fun d hd => h d (List.mem_cons_of_mem c hd))

/-- C2: the marker key is
`<run-folder>/function_completions/<base>.<rank>.done`, the rank segment
being omitted for rank-free names (for identities free of parentheses and
backslashes), backslashes are normalized to forward slashes, and the two
concrete examples from the spec hold. -/
theorem C2_done_key_derivation :
    (∀ folder wf base rank : String,
      (∀ c ∈ folder.data, c ≠ '\\') →
      (∀ c ∈ base.data, c ≠ '(' ∧ c ≠ ')' ∧ c ≠ '\\') →
      (∀ c ∈ rank.data, c ≠ '(' ∧ c ≠ ')' ∧ c ≠ '\\') →
      done_key ⟨base ++ "(" ++ rank ++ ")", wf, folder⟩
          = folder ++ "/function_completions/" ++ base ++ "." ++ rank ++ ".done"
        ∧ done_key ⟨base, wf, folder⟩
          = folder ++ "/function_completions/" ++ base ++ ".done")
    ∧ get_s3_path "a\\b" = "a/b"
    ∧ done_key ⟨"f", "wf", "run1"⟩ = "run1/function_completions/f.done"
    ∧ done_key ⟨"f(2)", "wf", "run1"⟩ = "run1/function_completions/f.2.done" := by
  have hlit1 : ∀ c ∈ "/function_completions/".data, c ≠ '\\' := by decide
  have hlit2 : ∀ c ∈ ".done".data, c ≠ '\\' := by decide
  have hdot : ∀ c ∈ ['.'], c ≠ '\\' := by decide
  refine ⟨fun folder wf base rank hf hb hr => ⟨?_, ?_⟩, by decide, by decide, by decide⟩
  · apply String.ext
    show (folder.data ++ "/function_completions/".data
        ++ replaceParens (base ++ "(" ++ rank ++ ")").data ++ ".done".data).map
          (fun c => if c = '\\' then '/' else c) = _
    have hdata : (base ++ "(" ++ rank ++ ")").data
        = base.data ++ ['('] ++ rank.data ++ [')'] := by
      simp [String.data_append]
    have hp1 : replaceParens ['('] = ['.'] := rfl
    have hp2 : replaceParens [')'] = ([] : List Char) := rfl
    rw [hdata, replaceParens_append, replaceParens_append, replaceParens_append,
      replaceParens_eq_self base.data (fun c hc => ⟨(hb c hc).1, (hb c hc).2.1⟩),
      replaceParens_eq_self rank.data (fun c hc => ⟨(hr c hc).1, (hr c hc).2.1⟩),
      hp1, hp2]
    rw [slashMap_eq_self]
    · simp [String.data_append]
    · intro c hc
      simp only [List.append_nil, List.append_assoc, List.mem_append,
        List.mem_singleton] at hc
      rcases hc with h1 | h2 | h3 | h4 | h5 | h6
      · exact hf c h1
      · exact hlit1 c h2
      · exact (hb c h3).2.2
      · exact hdot c (by simp [h4])
      · exact (hr c h5).2.2
      · exact hlit2 c h6
  · apply String.ext
    show (folder.data ++ "/function_completions/".data
        ++ replaceParens base.data ++ ".done".data).map
          (fun c => if c = '\\' then '/' else c) = _
    rw [replaceParens_eq_self base.data (fun c hc => ⟨(hb c hc).1, (hb c hc).2.1⟩)]
    rw [slashMap_eq_self]
    · simp [String.data_append]
    · intro c hc
      simp only [List.append_assoc, List.mem_append] at hc
      rcases hc with h1 | h2 | h3 | h4
      · exact hf c h1
      · exact hlit1 c h2
      · exact (hb c h3).2.2
      · exact hlit2 c h4

/-- Witness for C2 at concrete identity strings. -/
theorem C2_witness :
    done_key ⟨"g(7)", "wf", "runX"⟩ = "runX/function_completions/g.7.done" := by
  have h := (C2_done_key_derivation.1 "runX" "wf" "g" "7"
    (by decide) (by decide) (by decide)).1
  simpa using h

/-! ### C1 — classification on `updated` events -/

/-- C1: on an `updated` event the failure check runs first: a failure
match sets `FAILED` and stops the log source whatever the store says; with
no failure match, a present completion marker sets `COMPLETED` and stops
the log source; with neither, the state (in particular the status field)
is unchanged. -/
theorem C1_log_updated_classification :
    ∀ cfg env st,
      (check_for_failure env.logs_content = true →
        (handle_log_updated cfg env st).status = FAILED
          ∧ (handle_log_updated cfg env st).stopped = true)
      ∧ (check_for_failure env.logs_content = false →
          check_for_completion cfg env = true →
          (handle_log_updated cfg env st).status = COMPLETED
            ∧ (handle_log_updated cfg env st).stopped = true)
      ∧ (check_for_failure env.logs_content = false →
          check_for_completion cfg env = false →
          handle_log_updated cfg env st = st) := by
  intro cfg env st
  refine ⟨fun hf => ?_, fun hf hc => ?_, fun hf hc => ?_⟩
  · simp [handle_log_updated, hf, set_status]
  · simp [handle_log_updated, hf, hc, set_status]
  · simp [handle_log_updated, hf, hc]

/-- Witness for C1: a log containing the failure pattern drives a concrete
tracker to `FAILED` and stops its log source. -/
theorem C1_witness :
    (handle_log_updated cfgA envErr initState).status = FAILED
      ∧ (handle_log_updated cfgA envErr initState).stopped = true :=
  (C1_log_updated_classification cfgA envErr initState).1 (by decide)

/-! ### C5 — initial state and the unknown-invocations sentinel -/

lemma step_invocations_of_ne_complete (cfg : Config) (st : TrackerState)
    (p : LogEvent × Env) (hp : p.1 ≠ LogEvent.LOG_COMPLETE) :
    (step cfg st p).invocations = st.invocations := by
  unfold step
  split
  · rfl
  · match hev : p.1 with
    | LogEvent.LOG_CREATED => simp [hev, handle_log_created, set_status]
    | LogEvent.LOG_UPDATED =>
      simp only [hev, handle_log_updated, set_status]
      split_ifs <;> rfl
    | LogEvent.LOG_COMPLETE => exact absurd hev hp

lemma run_invocations_of_ne_complete (cfg : Config)
    (events : List (LogEvent × Env)) (st : TrackerState)
    (h : ∀ p ∈ events, p.1 ≠ LogEvent.LOG_COMPLETE) :
    (run cfg st events).invocations = st.invocations := by
  induction events generalizing st with
  | nil => rfl
  | cons p rest ih =>
    have hstep := step_invocations_of_ne_complete cfg st p
      (h p (List.mem_cons_self p rest))
    calc (run cfg st (p :: rest)).invocations
        = (run cfg (step cfg st p) rest).invocations := rfl
      _ = (step cfg st p).invocations :=
          ih (step cfg st p) (fun q hq => h q (List.mem_cons_of_mem p hq))
      _ = st.invocations := hstep

/-- C5: a fresh tracker has status `PENDING` and the unknown sentinel
(`none`, not the empty set) for invocations; any run of `created`/`updated`
events keeps the sentinel; the `complete` event stores the extracted set,
which reads thereafter return. -/
theorem C5_initial_state_and_sentinel :
    initState.status = PENDING
    ∧ initState.invocations = none
    ∧ initState.invocations ≠ some ∅
    ∧ (∀ cfg events, (∀ p ∈ events, p.1 ≠ LogEvent.LOG_COMPLETE) →
        (run cfg initState events).invocations = none)
    ∧ (∀ cfg env st, (handle_log_complete cfg env st).invocations
        = some (extract_invocations cfg.workflow_name env.logs_content)) := by
  refine ⟨rfl, rfl, by simp [initState], fun cfg events h => ?_, fun cfg env st => ?_⟩
  · exact run_invocations_of_ne_complete cfg events initState h
  · simp only [handle_log_complete, set_status]
    split_ifs <;> rfl

/-- Witness for C5: a concrete `created`-then-`updated` run keeps the
sentinel, and a concrete `complete` event stores a set. -/
theorem C5_witness :
    (run cfgA initState
        [(LogEvent.LOG_CREATED, envA), (LogEvent.LOG_UPDATED, envA)]).invocations = none :=
  C5_initial_state_and_sentinel.2.2.2.1 cfgA
    [(LogEvent.LOG_CREATED, envA), (LogEvent.LOG_UPDATED, envA)]
    (by
      intro p hp
      simp only [List.mem_cons, List.not_mem_nil, or_false] at hp
      rcases hp with h | h <;> subst h <;> decide)

/-! ### C4 — invocation extraction on the `complete` event -/

/-- C4: extraction collects the matched tokens into a set, collapsing the
duplicate `wf-taskA` and stripping the leading `wf-` prefix, and the
`complete` event stores exactly that set. -/
theorem C4_extract_invocations_example :
    extract_invocations "wf" logC4 = {"taskA", "taskB"}
    ∧ (handle_log_complete ⟨"f", "wf", "run1"⟩
        ⟨logC4, fun _ => false⟩ initState).invocations
      = some {"taskA", "taskB"} := by
  constructor <;> decide

/-! ### C10 — token length after prefix stripping -/

/-- C10 as stated is false: with workflow name `wf`, a log recording a
successful invocation of `wf-a` stores the single-character entry `"a"`
(the matched token `wf-a` has four characters, but prefix stripping
shortens it to one). -/
theorem C10_counterexample :
    "a" ∈ extract_invocations "wf"
        "q [scheduler.py] GitHub Action: Successfully invoked: wf-a\n"
      ∧ ("a" : String).length = 1 := by
  constructor <;> decide

lemma tokenHere_two_le_length (l t : List Char) (h : tokenHere l = some t) :
    2 ≤ t.length := by
  unfold tokenHere at h
  split at h
  next => exact absurd h (by simp)
  next => exact absurd h (by simp)
  next d rem heq =>
    split_ifs at h with hd
    · have ht : t = d :: rem.takeWhile isTokenChar := (Option.some_inj.mp h).symm
      have hne : ¬(rem.takeWhile isTokenChar).isEmpty := by
        intro hc
        rw [hc] at hd
        simp at hd
      subst ht
      have h1 : 1 ≤ (rem.takeWhile isTokenChar).length := by
        cases hl : rem.takeWhile isTokenChar with
        | nil => rw [hl] at hne; simp at hne
        | cons a as => simp
      simpa [List.length_cons] using Nat.succ_le_succ h1

/-- C10 amended: every token matched by the invocation pattern has at
least two characters, so a function whose logged name after the marker is
a single character is never matched (concretely, name `a` yields the empty
set); after workflow-prefix stripping, though, a stored entry can be a
single character. -/
theorem C10_amended_min_token_length :
    (∀ l t, t ∈ findTokens l → 2 ≤ t.length)
    ∧ extract_invocations "wf"
        "q [scheduler.py] GitHub Action: Successfully invoked: a\n" = ∅ := by
  constructor
  · intro l
    induction l with
    | nil => intro t ht; cases ht
    | cons c rest ih =>
      intro t ht
      unfold findTokens at ht
      cases hth : tokenHere (c :: rest) with
      | none => rw [hth] at ht; exact ih t ht
      | some t' =>
        rw [hth] at ht
        rcases List.mem_cons.mp ht with h | h
        · exact h ▸ tokenHere_two_le_length (c :: rest) t' hth
        · exact ih t h
  · decide

/-- Witness for the amended C10 at a concrete log and token. -/
theorem C10_amended_witness :
    2 ≤ ("wf-a".data : List Char).length :=
  C10_amended_min_token_length.1
    "q [scheduler.py] GitHub Action: Successfully invoked: wf-a\n".data
    "wf-a".data (by decide)

/-! ### C3 — the failure check characterized -/

lemma beginsWith_iff (p l : List Char) :
    beginsWith p l = true ↔ ∃ r, l = p ++ r := by
  induction p generalizing l with
  | nil =>
    simp [beginsWith]
  | cons a ps ih =>
    cases l with
    | nil =>
      simp only [beginsWith, List.cons_append]
      constructor
      · intro h; cases h
      · rintro ⟨r, hr⟩; cases hr
    | cons c cs =>
      simp only [beginsWith, Bool.and_eq_true, decide_eq_true_eq, ih,
        List.cons_append, List.cons.injEq]
      constructor
      · rintro ⟨rfl, r, rfl⟩; exact ⟨r, rfl, rfl⟩
      · rintro ⟨r, rfl, rfl⟩; exact ⟨rfl, r, rfl⟩

lemma tsLoop_iff (l : List Char) :
    tsLoop l = true ↔
      ∃ ts r, l = ts ++ errorTail ++ r ∧ ts ≠ []
        ∧ ∀ c ∈ ts, isTsChar c = true := by
  induction l with
  | nil =>
    simp only [tsLoop]
    constructor
    · intro h; cases h
    · rintro ⟨ts, r, hl, hne, -⟩
      rcases ts with - | ⟨a, ts'⟩
      · exact absurd rfl hne
      · cases hl
  | cons c rest ih =>
    simp only [tsLoop, Bool.and_eq_true, Bool.or_eq_true, beginsWith_iff, ih]
    constructor
    · rintro ⟨hc, ⟨r, rfl⟩ | ⟨ts, r, rfl, hne, hts⟩⟩
      · exact ⟨[c], r, by simp, by simp, by simpa using hc⟩
      · refine ⟨c :: ts, r, by simp, by simp, ?_⟩
        intro d hd
        rcases List.mem_cons.mp hd with rfl | hd
        · exact hc
        · exact hts d hd
    · rintro ⟨ts, r, hl, hne, hts⟩
      rcases ts with - | ⟨a, ts'⟩
      · exact absurd rfl hne
      · simp only [List.cons_append, List.cons.injEq] at hl
        obtain ⟨rfl, hrest⟩ := hl
        refine ⟨hts c (List.mem_cons_self c ts'), ?_⟩
        rcases ts' with - | ⟨b, ts''⟩
        · exact Or.inl ⟨r, by simpa using hrest⟩
        · refine Or.inr ⟨b :: ts'', r, by simpa using hrest, by simp, ?_⟩
          intro d hd
          exact hts d (List.mem_cons_of_mem c hd)

lemma matchHere_iff (l : List Char) :
    matchHere l = true ↔
      ∃ ts r, l = '[' :: (ts ++ errorTail ++ r) ∧ ts ≠ []
        ∧ ∀ c ∈ ts, isTsChar c = true := by
  cases l with
  | nil =>
    simp only [matchHere]
    constructor
    · intro h; cases h
    · rintro ⟨ts, r, hl, -, -⟩; cases hl
  | cons c rest =>
    simp only [matchHere, Bool.and_eq_true, decide_eq_true_eq, tsLoop_iff]
    constructor
    · rintro ⟨rfl, ts, r, rfl, hne, hts⟩
      exact ⟨ts, r, rfl, hne, hts⟩
    · rintro ⟨ts, r, hl, hne, hts⟩
      rw [List.cons.injEq] at hl
      exact ⟨hl.1, ts, r, hl.2, hne, hts⟩

lemma failedSearch_iff (l : List Char) :
    failedSearch l = true ↔
      ∃ pre ts post, l = pre ++ '[' :: (ts ++ errorTail ++ post) ∧ ts ≠ []
        ∧ ∀ c ∈ ts, isTsChar c = true := by
  induction l with
  | nil =>
    simp only [failedSearch]
    constructor
    · intro h; cases h
    · rintro ⟨pre, ts, post, hl, -, -⟩
      rcases pre with - | ⟨a, pre'⟩ <;> cases hl
  | cons c rest ih =>
    simp only [failedSearch, Bool.or_eq_true, matchHere_iff, ih]
    constructor
    · rintro (⟨ts, r, hl, hne, hts⟩ | ⟨pre, ts, post, rfl, hne, hts⟩)
      · exact ⟨[], ts, r, by simpa using hl, hne, hts⟩
      · exact ⟨c :: pre, ts, post, by simp, hne, hts⟩
    · rintro ⟨pre, ts, post, hl, hne, hts⟩
      rcases pre with - | ⟨a, pre'⟩
      · exact Or.inl ⟨ts, post, by simpa using hl, hne, hts⟩
      · simp only [List.cons_append, List.cons.injEq] at hl
        exact Or.inr ⟨pre', ts, post, hl.2, hne, hts⟩

/-- C3: the failure check is true exactly when the log contains, at any
position, a substring `[<timestamp>] [ERROR]` with a nonempty timestamp of
digits (any Unicode decimal digit, as Python's `\d` matches) and dots; in
particular `[12.34] [ERROR]` triggers it, so does an Arabic-Indic digit
timestamp, and a log whose similar text lacks the opening bracket does
not. -/
theorem C3_failure_check_iff :
    (∀ s : String,
      check_for_failure s = true ↔
        ∃ pre ts post, s.data = pre ++ '[' :: (ts ++ errorTail ++ post)
          ∧ ts ≠ [] ∧ ∀ c ∈ ts, isTsChar c = true)
    ∧ check_for_failure "blah [12.34] [ERROR] blah" = true
    ∧ check_for_failure "[٣] [ERROR]" = true
    ∧ check_for_failure "12.34] [ERROR]" = false := by
  exact ⟨fun s => failedSearch_iff s.data, by decide, by decide, by decide⟩

/-- Witness for C3 at a concrete log text. -/
theorem C3_witness :
    ∃ pre ts post,
      ("[1] [ERROR]" : String).data = pre ++ '[' :: (ts ++ errorTail ++ post)
        ∧ ts ≠ [] ∧ ∀ c ∈ ts, isTsChar c = true :=
  (C3_failure_check_iff.1 "[1] [ERROR]").mp (by decide)

/-! ### C6 — terminal statuses are stable under later events -/

lemma run_of_stopped (cfg : Config) (st : TrackerState)
    (events : List (LogEvent × Env)) (h : st.stopped = true) :
    run cfg st events = st := by
  induction events with
  | nil => rfl
  | cons p rest ih =>
    show run cfg (step cfg st p) rest = st
    rw [step, if_pos h]
    exact ih

lemma step_preserves_inv (cfg : Config) (st : TrackerState)
    (p : LogEvent × Env) (hp : p.1 ≠ LogEvent.LOG_COMPLETE)
    (hinv : terminalImpliesStopped st) :
    terminalImpliesStopped (step cfg st p) := by
  unfold step
  split
  · exact hinv
  · next hns =>
    match hev : p.1 with
    | LogEvent.LOG_CREATED =>
      intro hfin
      exact absurd (show has_final_state RUNNING = true from hfin) (by decide)
    | LogEvent.LOG_UPDATED =>
      show terminalImpliesStopped (handle_log_updated cfg p.2 st)
      unfold handle_log_updated
      split_ifs
      · intro _; rfl
      · intro _; rfl
      · exact hinv
    | LogEvent.LOG_COMPLETE => exact absurd hev hp

lemma run_preserves_inv (cfg : Config) (events : List (LogEvent × Env))
    (st : TrackerState) (h : ∀ p ∈ events, p.1 ≠ LogEvent.LOG_COMPLETE)
    (hinv : terminalImpliesStopped st) :
    terminalImpliesStopped (run cfg st events) := by
  induction events generalizing st with
  | nil => exact hinv
  | cons p rest ih =>
    exact ih (step cfg st p) (fun q hq => h q (List.mem_cons_of_mem p hq))
      (step_preserves_inv cfg st p (h p (List.mem_cons_self p rest)) hinv)

/-- C6: over any event sequence of `created`/`updated` events followed by
one final `complete` event (which covers every sequence delivered in the
specified order), starting from the freshly constructed state, once the
status reads as terminal at some point of the trace it reads the same at
every later point. -/
theorem C6_terminal_monotonic :
    ∀ (cfg : Config) (pre : List (LogEvent × Env)) (envc : Env) (i j : Nat),
      (∀ p ∈ pre, p.1 ≠ LogEvent.LOG_COMPLETE) →
      i ≤ j → j ≤ (pre ++ [(LogEvent.LOG_COMPLETE, envc)]).length →
      has_final_state (run cfg initState
          ((pre ++ [(LogEvent.LOG_COMPLETE, envc)]).take i)).status = true →
      (run cfg initState ((pre ++ [(LogEvent.LOG_COMPLETE, envc)]).take j)).status
        = (run cfg initState ((pre ++ [(LogEvent.LOG_COMPLETE, envc)]).take i)).status := by
  intro cfg pre envc i j hpre hij hj hterm
  set full := pre ++ [(LogEvent.LOG_COMPLETE, envc)] with hfull
  by_cases hi : i ≤ pre.length
  · have htake : full.take i = pre.take i := List.take_append_of_le_length hi
    have hinv : terminalImpliesStopped (run cfg initState (full.take i)) := by
      rw [htake]
      exact run_preserves_inv cfg (pre.take i) initState
        (fun p hp => hpre p (List.mem_of_mem_take hp)) (by intro h; cases h)
    have hstopped : (run cfg initState (full.take i)).stopped = true := hinv hterm
    have hsplit : full.take j = full.take i ++ (full.drop i).take (j - i) := by
      conv_lhs => rw [show j = i + (j - i) from by omega]
      exact List.take_add full i (j - i)
    rw [hsplit, run, List.foldl_append]
    rw [show List.foldl (step cfg) initState (full.take i) = run cfg initState (full.take i) from rfl]
    rw [show List.foldl (step cfg) (run cfg initState (full.take i)) ((full.drop i).take (j - i))
        = run cfg (run cfg initState (full.take i)) ((full.drop i).take (j - i)) from rfl]
    rw [run_of_stopped cfg _ _ hstopped]
  · have hlen : full.length = pre.length + 1 := by
      simp [hfull]
    have hij' : i = j := by omega
    rw [hij']

/-- Witness for C6: a failure on the first `updated` event drives a
concrete tracker to `FAILED`, and the status is unchanged after the
final `complete` event. -/
theorem C6_witness :
    (run cfgA initState
        (([(LogEvent.LOG_UPDATED, envErr)] ++ [(LogEvent.LOG_COMPLETE, envA)]).take 2)).status
      = (run cfgA initState
        (([(LogEvent.LOG_UPDATED, envErr)] ++ [(LogEvent.LOG_COMPLETE, envA)]).take 1)).status :=
  C6_terminal_monotonic cfgA [(LogEvent.LOG_UPDATED, envErr)] envA 1 2
    (by
      intro p hp
      simp only [List.mem_singleton] at hp
      subst hp
      decide)
    (by decide) (by decide) (by decide)

end FaaSr
